import Mathlib

/-!
# Verification of the Personal Finance Manager backup/restore service

Shallow embedding of `src/main.py` (FastAPI + MySQL backup/restore gateway).

Modelling conventions:

* Table rows are the pydantic record structures themselves: the MySQL column
  lists in `init_database` coincide field-for-field with the pydantic models.
* `DECIMAL(10,2)` values (`amount`, `monthly_limit`) are modelled as `Rat`;
  the service performs no arithmetic on them, they are passed through verbatim.
* A table is a `List` of rows in insertion order.
* `REPLACE INTO` (used for `transactions` and `budgets`) follows MySQL
  semantics: every old row that collides with the new row on the PRIMARY KEY
  or on any UNIQUE index is deleted, then the new row is inserted.
* `INSERT ... ON DUPLICATE KEY UPDATE icon = VALUES(icon)` (used for
  `categories`) updates exactly one existing row when the insert collides on
  a unique index.  InnoDB detects a collision on the clustered PRIMARY KEY
  (`id`) before one on the secondary UNIQUE index (`name`), so the model
  checks `id` first and `name` second.
* `ORDER BY date DESC` on a `VARCHAR` column is lexicographic comparison of
  the character sequences (descending), modelled by `chListLe` on
  `String.data`.
* The MySQL connection is transactional (`mysql.connector` has autocommit
  off): statements act on an uncommitted working state; `connection.commit()`
  publishes it and `connection.rollback()` discards it.  Storage failures
  (constraint violations, lost connectivity) are injected by an oracle
  `Nat → Bool` giving for each statement index (and for the final commit)
  whether it raises `mysql.connector.Error`.
-/

/-- Pydantic model `Transaction` of `src/main.py`; also the row shape of the
`transactions` table (PRIMARY KEY `id`). -/
structure Transaction where
  id : String
  date : String
  category : String
  type : String
  amount : Rat
  description : String
  created_at : String
  updated_at : String
  synced : Int
deriving DecidableEq

/-- Pydantic model `Budget`; row shape of the `budgets` table
(PRIMARY KEY `id`, UNIQUE `category`). -/
structure Budget where
  id : String
  category : String
  monthly_limit : Rat
  created_at : String
  updated_at : String
deriving DecidableEq

/-- Pydantic model `Category`; row shape of the `categories` table
(PRIMARY KEY `id`, UNIQUE `name`, nullable `icon`). -/
structure Category where
  id : String
  name : String
  type : String
  icon : Option String
  created_at : String
deriving DecidableEq

/-- Pydantic model `BackupData`: the request body of `POST /backup`. -/
structure BackupData where
  transactions : List Transaction
  budgets : List Budget
  categories : List Category
deriving DecidableEq

/-- The persistent MySQL database state: the three tables created by
`init_database`. -/
structure DB where
  transactions : List Transaction
  budgets : List Budget
  categories : List Category
deriving DecidableEq

/-- The freshly initialized database (all three tables empty). -/
def emptyDB : DB := ⟨[], [], []⟩

/-- `fastapi.HTTPException` as raised by the handlers. -/
structure HTTPException where
  status_code : Nat
  detail : String
deriving DecidableEq

/-- The JSON body returned by a successful `POST /backup`. -/
structure BackupResponse where
  status : String
  message : String
  transactions_backed_up : Nat
  budgets_backed_up : Nat
  categories_backed_up : Nat
deriving DecidableEq

/-- The JSON body returned by `GET /restore` (`RestoreResponse` in the
source; rows come back with the full column set, i.e. as the records). -/
structure RestoreResponse where
  transactions : List Transaction
  budgets : List Budget
  categories : List Category
deriving DecidableEq

/-- The JSON body returned by `GET /health` (the fields common to both
branches; `message`/`error` carry no contract). -/
structure HealthResponse where
  status : String
  database : String
deriving DecidableEq

/-! ## MySQL row-level semantics -/

/-- Lexicographic `≤` on character sequences: the comparison MySQL uses for
`ORDER BY` on the `VARCHAR` column `date` (binary/codepoint collation; the
dates are plain ASCII `YYYY-MM-DD` strings). -/
def chListLe : List Char → List Char → Bool
  | [], _ => true
  | _ :: _, [] => false
  | a :: as, b :: bs => a < b || (a == b && chListLe as bs)

/-- `REPLACE INTO`: delete every stored row that collides with the new row
according to `conflict`, then insert the new row. -/
def replaceRow {α : Type} (conflict : α → α → Bool) (tbl : List α) (r : α) : List α :=
  tbl.filter (fun x => !(conflict r x)) ++ [r]

/-- Key collision for the `transactions` table: PRIMARY KEY `id`. -/
def txConflict (t row : Transaction) : Bool :=
  row.id == t.id

/-- Key collision for the `budgets` table: PRIMARY KEY `id` or UNIQUE
`category`. -/
def budgetConflict (b row : Budget) : Bool :=
  row.id == b.id || row.category == b.category

/-- Does the `categories` table contain a row with primary key `z`? -/
def hasId (tbl : List Category) (z : String) : Bool :=
  tbl.any (fun row => row.id == z)

/-- Does the `categories` table contain a row with unique name `z`? -/
def hasName (tbl : List Category) (z : String) : Bool :=
  tbl.any (fun row => row.name == z)

/-- `INSERT INTO categories ... ON DUPLICATE KEY UPDATE icon = VALUES(icon)`:
if the new row collides on the PRIMARY KEY `id` the existing row keeps every
column except `icon`; otherwise, if it collides on the UNIQUE `name`,
likewise; otherwise it is inserted. -/
def upsertCategory (tbl : List Category) (c : Category) : List Category :=
  if hasId tbl c.id then
    tbl.map (fun row => if row.id == c.id then { row with icon := c.icon } else row)
  else if hasName tbl c.name then
    tbl.map (fun row => if row.name == c.name then { row with icon := c.icon } else row)
  else
    tbl ++ [c]

/-! ## The `/backup` handler -/

/-- One `cursor.execute` issued by the `backup` handler. -/
inductive Stmt where
  | replTx (t : Transaction)
  | replBudget (b : Budget)
  | upsertCat (c : Category)
deriving DecidableEq

/-- Effect of a single statement on the (uncommitted) database state. -/
def applyStmt (db : DB) : Stmt → DB
  | .replTx t => { db with transactions := replaceRow txConflict db.transactions t }
  | .replBudget b => { db with budgets := replaceRow budgetConflict db.budgets b }
  | .upsertCat c => { db with categories := upsertCategory db.categories c }

/-- The statement sequence issued by `backup`: all transactions, then all
budgets, then all categories, each in request order. -/
def backupStmts (d : BackupData) : List Stmt :=
  d.transactions.map Stmt.replTx ++ d.budgets.map Stmt.replBudget
    ++ d.categories.map Stmt.upsertCat

/-- Run the statement list against the uncommitted working state.  `oracle i`
tells whether the `i`-th `cursor.execute` raises `mysql.connector.Error`
(constraint violation or lost connectivity). -/
def execStmts (oracle : Nat → Bool) : Nat → DB → List Stmt → Except Unit DB
  | _, w, [] => Except.ok w
  | i, w, s :: rest =>
      if oracle i then Except.error ()
      else execStmts oracle (i + 1) (applyStmt w s) rest

/-- Oracle under which no storage operation fails. -/
def noFail : Nat → Bool := fun _ => false

/-- The `POST /backup` handler.  Returns the HTTP outcome together with the
committed database state after the call: on any `Error` the open transaction
is rolled back (the committed state is the original `db`) and HTTP 500 is
raised; otherwise the work is committed (index `(backupStmts d).length` of
the oracle decides whether the commit itself fails) and the response reports
the lengths of the three submitted sequences. -/
def backup (db : DB) (d : BackupData) (oracle : Nat → Bool) :
    Except HTTPException BackupResponse × DB :=
  match execStmts oracle 0 db (backupStmts d) with
  | Except.error _ => (Except.error ⟨500, "Backup failed"⟩, db)
  | Except.ok w =>
      if oracle (backupStmts d).length then (Except.error ⟨500, "Backup failed"⟩, db)
      else
        (Except.ok ⟨"success", "Backup completed successfully",
            d.transactions.length, d.budgets.length, d.categories.length⟩, w)

/-! ## The `/restore` handler -/

/-- Transaction `t` may precede `u` in the `ORDER BY date DESC` result:
`u.date ≤ t.date` lexicographically. -/
def dateDesc (t u : Transaction) : Prop :=
  chListLe u.date.data t.date.data = true

instance : DecidableRel dateDesc := fun _ _ => instDecidableEqBool _ _

/-- The `GET /restore` handler: transactions sorted by `date` descending
(`ORDER BY date DESC`); the budget and category SELECTs carry no ORDER BY,
so MySQL leaves their result order storage-defined — the model must fix some
order and uses the table list as is, but no theorem may rely on that choice:
conclusions about restored budgets and categories are stated
order-insensitively (membership, filters, permutations). -/
def restore (db : DB) : RestoreResponse :=
  { transactions := List.insertionSort dateDesc db.transactions
  , budgets := db.budgets
  , categories := db.categories }

/-! ## Connection establishment and the `/health` handler -/

/-- The required part of the environment configuration (`DB_HOST`, `DB_USER`,
`DB_PASSWORD`, `DB_NAME`); `None` means the variable is unset or empty. -/
structure Env where
  db_host : Option String
  db_user : Option String
  db_password : Option String
  db_name : Option String
deriving DecidableEq

/-- The `missing_vars` list computed by `get_db_connection`. -/
def missingVars (e : Env) : List String :=
  (if e.db_host.isNone then ["DB_HOST"] else [])
    ++ (if e.db_user.isNone then ["DB_USER"] else [])
    ++ (if e.db_password.isNone then ["DB_PASSWORD"] else [])
    ++ (if e.db_name.isNone then ["DB_NAME"] else [])

/-- `get_db_connection`: raises HTTP 500 when required variables are missing
(`ValueError` branch) or when the connect fails (`Error` branch), modelled by
the flag `connectOk`. -/
def get_db_connection (e : Env) (connectOk : Bool) : Except HTTPException Unit :=
  if (missingVars e).isEmpty then
    if connectOk then Except.ok ()
    else Except.error ⟨500, "Database connection failed"⟩
  else
    Except.error ⟨500, "Missing required environment variables"⟩

/-- The `GET /health` handler: tries to open (and close) a connection; any
exception is converted into an `unhealthy`/`disconnected` status body.  It is
a total function into `HealthResponse` — it cannot raise — and it returns the
database state untouched. -/
def health_check (e : Env) (connectOk : Bool) (db : DB) : HealthResponse × DB :=
  match get_db_connection e connectOk with
  | Except.ok _ => (⟨"healthy", "connected"⟩, db)
  | Except.error _ => (⟨"unhealthy", "disconnected"⟩, db)

/-! ## Lemmas: the category partial upsert

The closed form of a replayed category sequence needs, for each base row,
the last record that wrote its `icon`, and, for each record, whether it was
inserted as a fresh row. -/

/-- Record `r`, submitted while the base table was `X`, writes its `icon`
onto base row `ρ`: either it collides with `ρ` on the primary key, or its id
occurs nowhere in `X` (so the `name` index decides the duplicate) and it
collides with `ρ` on the name. -/
def writes (X : List Category) (r ρ : Category) : Bool :=
  ρ.id == r.id || (!(hasId X r.id) && ρ.name == r.name)

/-- The icon of base row `ρ` after the record sequence `S` has been replayed
against base table `X`: the icon of the last record of `S` that writes onto
`ρ`, or `ρ`'s own icon if none does. -/
def lastIcon (X S : List Category) (ρ : Category) : Option String :=
  S.foldl (fun acc r => if writes X r ρ then r.icon else acc) ρ.icon

/-- Record `r` collides with no row of the base table `X` on either unique
index, so it is inserted as a fresh row. -/
def freshCat (X : List Category) (r : Category) : Bool :=
  !(hasId X r.id) && !(hasName X r.name)

/-- The committed database state after a fully successful `backup` call:
each table folded with its upsert strategy over its request sequence. -/
def applyBackup (db : DB) (d : BackupData) : DB :=
  { transactions := List.foldl (replaceRow txConflict) db.transactions d.transactions
  , budgets := List.foldl (replaceRow budgetConflict) db.budgets d.budgets
  , categories := List.foldl upsertCategory db.categories d.categories }

/-! ## Lemmas: `REPLACE INTO` semantics -/

section ReplaceLemmas

variable {α : Type} (c : α → α → Bool)

/-- Decomposing a run of `REPLACE INTO` statements over a table: the prior
rows survive exactly when they collide with no submitted record, and they are
followed by the rows the submitted sequence produces on an empty table. -/
theorem foldl_replaceRow_decomp :
    ∀ (S X : List α),
      List.foldl (replaceRow c) X S
        = X.filter (fun x => S.all (fun r => !(c r x))) ++ List.foldl (replaceRow c) [] S := by
  intro S
  induction S with
  | nil => intro X; simp
  | cons r S' ih =>
    intro X
    show List.foldl (replaceRow c) (replaceRow c X r) S' = _
    rw [ih (replaceRow c X r)]
    have h2 : List.foldl (replaceRow c) [] (r :: S') = List.foldl (replaceRow c) [r] S' := by
      show List.foldl (replaceRow c) (replaceRow c [] r) S' = _
      rfl
    rw [h2, ih [r]]
    simp only [replaceRow, List.filter_append, List.filter_filter, List.all_cons,
      List.append_assoc]
    congr 1
    apply List.filter_congr
    intro x _
    simp [Bool.and_comm]

/-- Rows produced by a run of `REPLACE INTO` statements all come from the
prior table or from the submitted sequence. -/
theorem mem_foldl_replaceRow :
    ∀ (S X : List α) (x : α), x ∈ List.foldl (replaceRow c) X S → x ∈ X ∨ x ∈ S := by
  intro S
  induction S with
  | nil => intro X x hx; exact Or.inl hx
  | cons r S' ih =>
    intro X x hx
    rcases ih (replaceRow c X r) x hx with h | h
    · rcases List.mem_append.mp h with h' | h'
      · exact Or.inl (List.mem_filter.mp h').1
      · have : x = r := by simpa using h'
        subst this
        exact Or.inr (List.mem_cons_self x S')
    · exact Or.inr (List.mem_cons_of_mem _ h)

/-- A run of `REPLACE INTO` statements is idempotent: replaying the same
record sequence over the resulting table reproduces it exactly (each record
collides at least with the row it wrote the first time). -/
theorem foldl_replaceRow_idem (hrefl : ∀ r, c r r = true) (S X : List α) :
    List.foldl (replaceRow c) (List.foldl (replaceRow c) X S) S
      = List.foldl (replaceRow c) X S := by
  rw [foldl_replaceRow_decomp c S X]
  rw [foldl_replaceRow_decomp c S
    (X.filter (fun x => S.all (fun r => !(c r x))) ++ List.foldl (replaceRow c) [] S)]
  rw [List.filter_append, List.filter_filter]
  have hnf : (List.foldl (replaceRow c) [] S).filter
      (fun x => S.all (fun r => !(c r x))) = [] := by
    rw [List.filter_eq_nil_iff]
    intro x hx
    have hxS : x ∈ S := by
      rcases mem_foldl_replaceRow c S [] x hx with h | h
      · cases h
      · exact h
    intro hall
    have := List.all_eq_true.mp hall x hxS
    rw [hrefl x] at this
    simp at this
  rw [hnf]
  have hff : X.filter (fun x =>
        (S.all fun r => !(c r x)) && (S.all fun r => !(c r x)))
      = X.filter (fun x => S.all fun r => !(c r x)) := by
    apply List.filter_congr
    intro x _
    exact Bool.and_self _
  rw [hff]
  simp

/-- When no record of the sequence collides with an earlier record, replaying
the sequence on an empty table stores every record verbatim, in order. -/
theorem foldl_replaceRow_of_pairwise :
    ∀ S : List α, S.Pairwise (fun a b => c b a = false) →
      List.foldl (replaceRow c) [] S = S := by
  intro S
  induction S with
  | nil => intro _; rfl
  | cons r S' ih =>
    intro hp
    rw [List.pairwise_cons] at hp
    show List.foldl (replaceRow c) (replaceRow c [] r) S' = r :: S'
    have h1 : replaceRow c [] r = [r] := rfl
    rw [h1, foldl_replaceRow_decomp c S' [r], ih hp.2]
    have h2 : [r].filter (fun x => S'.all (fun r' => !(c r' x))) = [r] := by
      have hall : (S'.all fun r' => !(c r' r)) = true := by
        rw [List.all_eq_true]
        intro r' hr'
        rw [hp.1 r' hr']
        rfl
      simp [List.filter_cons, hall]
    rw [h2]
    rfl

end ReplaceLemmas

/-! ## Lemmas: executing the backup statement list -/

/-- Under a failure-free oracle, executing the statements just folds their
effects over the working state. -/
theorem execStmts_noFail :
    ∀ (stmts : List Stmt) (i : Nat) (w : DB),
      execStmts noFail i w stmts = Except.ok (stmts.foldl applyStmt w) := by
  intro stmts
  induction stmts with
  | nil => intro i w; rfl
  | cons s rest ih =>
    intro i w
    simp only [execStmts, noFail, Bool.false_eq_true, if_false, List.foldl_cons]
    exact ih (i + 1) (applyStmt w s)

/-- The transaction statements only touch the `transactions` table. -/
theorem foldl_applyStmt_replTx :
    ∀ (ts : List Transaction) (db : DB),
      List.foldl applyStmt db (ts.map Stmt.replTx)
        = { db with transactions := List.foldl (replaceRow txConflict) db.transactions ts } := by
  intro ts
  induction ts with
  | nil => intro db; rfl
  | cons t ts' ih =>
    intro db
    simp only [List.map_cons, List.foldl_cons]
    rw [ih]
    rfl

/-- The budget statements only touch the `budgets` table. -/
theorem foldl_applyStmt_replBudget :
    ∀ (bs : List Budget) (db : DB),
      List.foldl applyStmt db (bs.map Stmt.replBudget)
        = { db with budgets := List.foldl (replaceRow budgetConflict) db.budgets bs } := by
  intro bs
  induction bs with
  | nil => intro db; rfl
  | cons b bs' ih =>
    intro db
    simp only [List.map_cons, List.foldl_cons]
    rw [ih]
    rfl

/-- The category statements only touch the `categories` table. -/
theorem foldl_applyStmt_upsertCat :
    ∀ (cs : List Category) (db : DB),
      List.foldl applyStmt db (cs.map Stmt.upsertCat)
        = { db with categories := List.foldl upsertCategory db.categories cs } := by
  intro cs
  induction cs with
  | nil => intro db; rfl
  | cons cr cs' ih =>
    intro db
    simp only [List.map_cons, List.foldl_cons]
    rw [ih]
    rfl

/-- Under a failure-free oracle, `backup` succeeds, reports the submitted
sequence lengths, and commits `applyBackup`. -/
theorem backup_noFail (db : DB) (d : BackupData) :
    backup db d noFail
      = (Except.ok ⟨"success", "Backup completed successfully",
          d.transactions.length, d.budgets.length, d.categories.length⟩,
         applyBackup db d) := by
  unfold backup
  rw [execStmts_noFail]
  simp only [noFail, Bool.false_eq_true, if_false]
  rw [backupStmts, List.foldl_append, List.foldl_append,
    foldl_applyStmt_replTx, foldl_applyStmt_replBudget, foldl_applyStmt_upsertCat]
  rfl

/-! ## Lemmas: the category partial upsert -/

theorem hasId_append (A B : List Category) (z : String) :
    hasId (A ++ B) z = (hasId A z || hasId B z) := by
  simp [hasId, List.any_append]

theorem hasName_append (A B : List Category) (z : String) :
    hasName (A ++ B) z = (hasName A z || hasName B z) := by
  simp [hasName, List.any_append]

theorem hasId_map_icon (f : Category → Category) (hf : ∀ ρ, (f ρ).id = ρ.id) :
    ∀ (X : List Category) (z : String), hasId (X.map f) z = hasId X z := by
  intro X z
  unfold hasId
  induction X with
  | nil => rfl
  | cons ρ X' ih =>
    simp only [List.map_cons, List.any_cons, ih]
    rw [hf ρ]

theorem hasName_map_icon (f : Category → Category) (hf : ∀ ρ, (f ρ).name = ρ.name) :
    ∀ (X : List Category) (z : String), hasName (X.map f) z = hasName X z := by
  intro X z
  unfold hasName
  induction X with
  | nil => rfl
  | cons ρ X' ih =>
    simp only [List.map_cons, List.any_cons, ih]
    rw [hf ρ]

theorem beq_id_false_of_hasId_false {X : List Category} {z : String} {ρ : Category}
    (h : hasId X z = false) (hρ : ρ ∈ X) : (ρ.id == z) = false := by
  have := List.any_eq_false.mp h ρ hρ
  simpa using this

theorem beq_name_false_of_hasName_false {X : List Category} {z : String} {ρ : Category}
    (h : hasName X z = false) (hρ : ρ ∈ X) : (ρ.name == z) = false := by
  have := List.any_eq_false.mp h ρ hρ
  simpa using this

theorem hasId_true_of_mem {X : List Category} {ρ : Category}
    (hρ : ρ ∈ X) : hasId X ρ.id = true := by
  unfold hasId
  rw [List.any_eq_true]
  exact ⟨ρ, hρ, beq_self_eq_true _⟩

theorem hasName_true_of_mem {X : List Category} {ρ : Category}
    (hρ : ρ ∈ X) : hasName X ρ.name = true := by
  unfold hasName
  rw [List.any_eq_true]
  exact ⟨ρ, hρ, beq_self_eq_true _⟩

/-- Two members of an id-wise pairwise-distinct list with equal ids are the
same element. -/
theorem eq_of_pairwise_id {S : List Category} {a b : Category}
    (hS : S.Pairwise (fun x y => x.id ≠ y.id)) (ha : a ∈ S) (hb : b ∈ S)
    (h : a.id = b.id) : a = b := by
  by_contra hne
  exact List.Pairwise.forall (fun _ _ hxy => Ne.symm hxy) hS ha hb hne h

/-- Two members of a name-wise pairwise-distinct list with equal names are
the same element. -/
theorem eq_of_pairwise_name {S : List Category} {a b : Category}
    (hS : S.Pairwise (fun x y => x.name ≠ y.name)) (ha : a ∈ S) (hb : b ∈ S)
    (h : a.name = b.name) : a = b := by
  by_contra hne
  exact List.Pairwise.forall (fun _ _ hxy => Ne.symm hxy) hS ha hb hne h

/-- An icon-selecting fold whose selector never fires below a given start
value keeps that start value; more precisely it keeps it as soon as every
firing record would contribute that very value. -/
theorem foldl_icon_const (w : Category → Bool) (ic : Category → Option String) :
    ∀ (S : List Category) (v : Option String),
      (∀ r ∈ S, w r = true → ic r = v) →
      S.foldl (fun acc r => if w r then ic r else acc) v = v := by
  intro S
  induction S with
  | nil => intro v _; rfl
  | cons r S' ih =>
    intro v hv
    simp only [List.foldl_cons]
    by_cases h : w r = true
    · rw [if_pos h, hv r (List.mem_cons_self r S') h]
      exact ih v fun r' hr' => hv r' (List.mem_cons_of_mem _ hr')
    · rw [if_neg h]
      exact ih v fun r' hr' => hv r' (List.mem_cons_of_mem _ hr')

/-- An icon-selecting fold either ignores its start value entirely (some
selector fires) or is the identity on it (none fires). -/
theorem foldl_icon_cases (w : Category → Bool) (ic : Category → Option String) :
    ∀ S : List Category,
      (∀ a b, S.foldl (fun acc r => if w r then ic r else acc) a
            = S.foldl (fun acc r => if w r then ic r else acc) b)
      ∨ (∀ a, S.foldl (fun acc r => if w r then ic r else acc) a = a) := by
  intro S
  induction S with
  | nil => exact Or.inr fun _ => rfl
  | cons r S' ih =>
    by_cases h : w r = true
    · left
      intro a b
      simp only [List.foldl_cons, if_pos h]
    · rcases ih with hl | hr
      · left
        intro a b
        simp only [List.foldl_cons, if_neg h]
        exact hl a b
      · right
        intro a
        simp only [List.foldl_cons, if_neg h]
        exact hr a

/-- Replaying an icon-selecting fold on its own result changes nothing. -/
theorem foldl_icon_idem (w : Category → Bool) (ic : Category → Option String)
    (S : List Category) (a : Option String) :
    S.foldl (fun acc r => if w r then ic r else acc)
        (S.foldl (fun acc r => if w r then ic r else acc) a)
      = S.foldl (fun acc r => if w r then ic r else acc) a := by
  rcases foldl_icon_cases w ic S with h | h
  · exact h _ a
  · exact h _

/-- Field-wise extensionality for category rows. -/
theorem Category_ext {a b : Category}
    (h1 : a.id = b.id) (h2 : a.name = b.name) (h3 : a.type = b.type)
    (h4 : a.icon = b.icon) (h5 : a.created_at = b.created_at) : a = b := by
  cases a
  cases b
  congr 1

/-- Shared step for the two colliding branches of the category upsert: when
`upsertCategory X r` acts as an icon-only rewrite `X.map f` of the base
table, the closed form extends from `S'` to `r :: S'`. -/
theorem foldl_upsertCategory_update_branch
    (r : Category) (S' X : List Category) (f : Category → Category)
    (hupd : upsertCategory X r = X.map f)
    (hki : ∀ ρ, (f ρ).id = ρ.id)
    (hkn : ∀ ρ, (f ρ).name = ρ.name)
    (hkt : ∀ ρ, (f ρ).type = ρ.type)
    (hkc : ∀ ρ, (f ρ).created_at = ρ.created_at)
    (hicon : ∀ ρ ∈ X, (f ρ).icon = if writes X r ρ then r.icon else ρ.icon)
    (hfr : freshCat X r = false)
    (hih : List.foldl upsertCategory (X.map f) S'
        = (X.map f).map (fun ρ => { ρ with icon := lastIcon (X.map f) S' ρ })
          ++ S'.filter (freshCat (X.map f))) :
    List.foldl upsertCategory X (r :: S')
      = X.map (fun ρ => { ρ with icon := lastIcon X (r :: S') ρ })
        ++ (r :: S').filter (freshCat X) := by
  simp only [List.foldl_cons]
  rw [hupd, hih]
  have hfilter : S'.filter (freshCat (X.map f)) = S'.filter (freshCat X) := by
    apply List.filter_congr
    intro x _
    unfold freshCat
    rw [hasId_map_icon f hki, hasName_map_icon f hkn]
  have hfcons : (r :: S').filter (freshCat X) = S'.filter (freshCat X) := by
    simp [List.filter_cons, hfr]
  rw [hfilter, hfcons]
  congr 1
  rw [List.map_map]
  apply List.map_congr_left
  intro ρ hρ
  have hlast : lastIcon (X.map f) S' (f ρ) = lastIcon X (r :: S') ρ := by
    unfold lastIcon
    rw [List.foldl_cons]
    rw [hicon ρ hρ]
    apply List.foldl_ext
    intro acc r' _
    have hw : writes (X.map f) r' (f ρ) = writes X r' ρ := by
      unfold writes
      rw [hki ρ, hkn ρ, hasId_map_icon f hki]
    rw [hw]
  show ({ f ρ with icon := lastIcon (X.map f) S' (f ρ) } : Category)
      = { ρ with icon := lastIcon X (r :: S') ρ }
  rw [hlast]
  exact Category_ext (hki ρ) (hkn ρ) (hkt ρ) rfl (hkc ρ)

/-- Closed form of replaying a category sequence with pairwise-distinct ids
and pairwise-distinct names: every base row survives with its icon rewritten
by the last record that writes onto it, followed by the fresh records,
stored verbatim in submission order. -/
theorem foldl_upsertCategory_closed :
    ∀ S X : List Category,
      S.Pairwise (fun a b => a.id ≠ b.id) →
      S.Pairwise (fun a b => a.name ≠ b.name) →
      List.foldl upsertCategory X S
        = X.map (fun ρ => { ρ with icon := lastIcon X S ρ }) ++ S.filter (freshCat X) := by
  intro S
  induction S with
  | nil =>
    intro X _ _
    simp [lastIcon]
  | cons r S' ih =>
    intro X hid hnm
    rw [List.pairwise_cons] at hid hnm
    by_cases hId : hasId X r.id = true
    · -- collision on the PRIMARY KEY `id`
      apply foldl_upsertCategory_update_branch r S' X
          (fun ρ => if ρ.id == r.id then { ρ with icon := r.icon } else ρ)
      · simp [upsertCategory, hId]
      · intro ρ; split <;> rfl
      · intro ρ; split <;> rfl
      · intro ρ; split <;> rfl
      · intro ρ; split <;> rfl
      · intro ρ _
        by_cases hc : (ρ.id == r.id) = true
        · simp [writes, hc]
        · simp [writes, hc, hId]
      · simp [freshCat, hId]
      · exact ih _ hid.2 hnm.2
    · rw [Bool.not_eq_true] at hId
      by_cases hNm : hasName X r.name = true
      · -- collision on the UNIQUE `name`
        apply foldl_upsertCategory_update_branch r S' X
            (fun ρ => if ρ.name == r.name then { ρ with icon := r.icon } else ρ)
        · simp [upsertCategory, hId, hNm]
        · intro ρ; split <;> rfl
        · intro ρ; split <;> rfl
        · intro ρ; split <;> rfl
        · intro ρ; split <;> rfl
        · intro ρ hρ
          have hidf : (ρ.id == r.id) = false := beq_id_false_of_hasId_false hId hρ
          by_cases hc : (ρ.name == r.name) = true
          · simp [writes, hc, hId, hidf]
          · simp [writes, hc, hId, hidf]
        · simp [freshCat, hNm]
        · exact ih _ hid.2 hnm.2
      · -- no collision: fresh insert
        rw [Bool.not_eq_true] at hNm
        have hbr : upsertCategory X r = X ++ [r] := by
          simp [upsertCategory, hId, hNm]
        simp only [List.foldl_cons]
        rw [hbr, ih _ hid.2 hnm.2]
        have hfr : freshCat X r = true := by
          simp [freshCat, hId, hNm]
        have hfcons : (r :: S').filter (freshCat X) = r :: S'.filter (freshCat X) := by
          simp [List.filter_cons, hfr]
        rw [hfcons, List.map_append]
        have hfilter : S'.filter (freshCat (X ++ [r])) = S'.filter (freshCat X) := by
          apply List.filter_congr
          intro x hx
          unfold freshCat
          rw [hasId_append, hasName_append]
          have h1 : hasId [r] x.id = (r.id == x.id) := by simp [hasId]
          have h2 : hasName [r] x.name = (r.name == x.name) := by simp [hasName]
          have h3 : (r.id == x.id) = false := beq_eq_false_iff_ne.mpr (hid.1 x hx)
          have h4 : (r.name == x.name) = false := beq_eq_false_iff_ne.mpr (hnm.1 x hx)
          rw [h1, h2, h3, h4]
          simp
        rw [hfilter]
        have hrow : lastIcon (X ++ [r]) S' r = r.icon := by
          unfold lastIcon
          apply foldl_icon_const
          intro r' hr' hw
          exfalso
          unfold writes at hw
          have h3 : (r.id == r'.id) = false := beq_eq_false_iff_ne.mpr (hid.1 r' hr')
          have h4 : (r.name == r'.name) = false := beq_eq_false_iff_ne.mpr (hnm.1 r' hr')
          rw [h3, h4] at hw
          simp at hw
        have hsingle : [r].map (fun ρ => { ρ with icon := lastIcon (X ++ [r]) S' ρ }) = [r] := by
          rw [List.map_singleton, hrow]
        have hmapX : X.map (fun ρ => { ρ with icon := lastIcon (X ++ [r]) S' ρ })
            = X.map (fun ρ => { ρ with icon := lastIcon X (r :: S') ρ }) := by
          apply List.map_congr_left
          intro ρ hρ
          have hlast : lastIcon (X ++ [r]) S' ρ = lastIcon X (r :: S') ρ := by
            unfold lastIcon
            rw [List.foldl_cons]
            have h1 : (ρ.id == r.id) = false := beq_id_false_of_hasId_false hId hρ
            have h2 : (ρ.name == r.name) = false := beq_name_false_of_hasName_false hNm hρ
            have hstart : (if writes X r ρ then r.icon else ρ.icon) = ρ.icon := by
              simp [writes, h1, h2]
            rw [hstart]
            apply List.foldl_ext
            intro acc r' hr'
            have hw : writes (X ++ [r]) r' ρ = writes X r' ρ := by
              unfold writes
              rw [hasId_append]
              have ha : hasId [r] r'.id = (r.id == r'.id) := by simp [hasId]
              have hb : (r.id == r'.id) = false := beq_eq_false_iff_ne.mpr (hid.1 r' hr')
              rw [ha, hb]
              simp
            rw [hw]
          rw [hlast]
        rw [hmapX, hsingle, List.append_assoc]
        rfl

/-- Mapping a function that fixes every member of a list is the identity. -/
theorem map_id_of_congr {α : Type} {l : List α} {g : α → α}
    (h : ∀ a ∈ l, g a = a) : l.map g = l := by
  induction l with
  | nil => rfl
  | cons a l' ih =>
    simp only [List.map_cons]
    rw [h a (List.mem_cons_self a l'), ih fun b hb => h b (List.mem_cons_of_mem _ hb)]

/-- On an empty table, a category sequence with pairwise-distinct ids and
pairwise-distinct names is stored verbatim, in order. -/
theorem foldl_upsertCategory_nil (S : List Category)
    (hid : S.Pairwise (fun a b => a.id ≠ b.id))
    (hnm : S.Pairwise (fun a b => a.name ≠ b.name)) :
    List.foldl upsertCategory [] S = S := by
  rw [foldl_upsertCategory_closed S [] hid hnm]
  simp only [List.map_nil, List.nil_append]
  apply List.filter_eq_self.mpr
  intro a _
  rfl


/-- Evaluating `lastIcon` after rewriting its writer test pointwise. -/
theorem lastIcon_ext (X' : List Category) (S : List Category) (σ : Category)
    (w : Category → Bool) (hw : ∀ r ∈ S, writes X' r σ = w r) :
    lastIcon X' S σ = S.foldl (fun acc r => if w r then r.icon else acc) σ.icon := by
  unfold lastIcon
  apply List.foldl_ext
  intro acc r hr
  rw [hw r hr]

/-- The closed form of a replayed category sequence is a fixed point of
replaying that sequence again. -/
theorem foldl_upsertCategory_stable (S X : List Category)
    (hid : S.Pairwise (fun a b => a.id ≠ b.id))
    (hnm : S.Pairwise (fun a b => a.name ≠ b.name)) :
    List.foldl upsertCategory
        (X.map (fun ρ => { ρ with icon := lastIcon X S ρ }) ++ S.filter (freshCat X)) S
      = X.map (fun ρ => { ρ with icon := lastIcon X S ρ }) ++ S.filter (freshCat X) := by
  rw [foldl_upsertCategory_closed S _ hid hnm]
  have hkeyId : ∀ z,
      hasId (X.map fun ρ => { ρ with icon := lastIcon X S ρ }) z = hasId X z :=
    hasId_map_icon (fun ρ => { ρ with icon := lastIcon X S ρ }) (fun _ => rfl) X
  have hkeyNm : ∀ z,
      hasName (X.map fun ρ => { ρ with icon := lastIcon X S ρ }) z = hasName X z :=
    hasName_map_icon (fun ρ => { ρ with icon := lastIcon X S ρ }) (fun _ => rfl) X
  have hFnil : S.filter (freshCat
      (X.map (fun ρ => { ρ with icon := lastIcon X S ρ }) ++ S.filter (freshCat X))) = [] := by
    rw [List.filter_eq_nil_iff]
    intro r hr
    rw [Bool.not_eq_true]
    show (!(hasId (X.map (fun ρ => { ρ with icon := lastIcon X S ρ })
          ++ S.filter (freshCat X)) r.id)
        && !(hasName (X.map (fun ρ => { ρ with icon := lastIcon X S ρ })
          ++ S.filter (freshCat X)) r.name)) = false
    rw [hasId_append, hasName_append, hkeyId, hkeyNm]
    by_cases hI : hasId X r.id = true
    · simp [hI]
    · rw [Bool.not_eq_true] at hI
      by_cases hN : hasName X r.name = true
      · simp [hN]
      · rw [Bool.not_eq_true] at hN
        have hrF : r ∈ S.filter (freshCat X) := by
          rw [List.mem_filter]
          exact ⟨hr, by simp [freshCat, hI, hN]⟩
        have hIF : hasId (S.filter (freshCat X)) r.id = true := hasId_true_of_mem hrF
        simp [hIF]
  rw [hFnil, List.append_nil, List.map_append]
  congr 1
  · -- surviving base rows keep their rewritten icon
    rw [List.map_map]
    apply List.map_congr_left
    intro ρ hρ
    have hwr : ∀ r ∈ S,
        writes (X.map (fun ρ => { ρ with icon := lastIcon X S ρ }) ++ S.filter (freshCat X)) r
            { ρ with icon := lastIcon X S ρ }
          = writes X r ρ := by
      intro r hr
      show (ρ.id == r.id
          || (!(hasId (X.map (fun ρ => { ρ with icon := lastIcon X S ρ })
              ++ S.filter (freshCat X)) r.id) && ρ.name == r.name))
        = (ρ.id == r.id || (!(hasId X r.id) && ρ.name == r.name))
      rw [hasId_append, hkeyId]
      by_cases hIF : hasId (S.filter (freshCat X)) r.id = true
      · obtain ⟨r₀, hr₀F, hbeq⟩ := List.any_eq_true.mp hIF
        have hr₀S : r₀ ∈ S := (List.mem_filter.mp hr₀F).1
        have hfr₀ : freshCat X r₀ = true := (List.mem_filter.mp hr₀F).2
        have hideq : r₀.id = r.id := by simpa using hbeq
        have hr₀r : r₀ = r := eq_of_pairwise_id hid hr₀S hr hideq
        subst hr₀r
        simp only [freshCat, Bool.and_eq_true] at hfr₀
        have hXn : hasName X r₀.name = false := by
          have := hfr₀.2
          simpa using this
        have hρn : (ρ.name == r₀.name) = false :=
          beq_name_false_of_hasName_false hXn hρ
        simp [hIF, hρn]
      · rw [Bool.not_eq_true] at hIF
        rw [hIF]
        simp
    show ({ { ρ with icon := lastIcon X S ρ } with
        icon := lastIcon (X.map (fun ρ => { ρ with icon := lastIcon X S ρ })
          ++ S.filter (freshCat X)) S { ρ with icon := lastIcon X S ρ } } : Category)
      = { ρ with icon := lastIcon X S ρ }
    have h1 : lastIcon (X.map (fun ρ => { ρ with icon := lastIcon X S ρ })
          ++ S.filter (freshCat X)) S { ρ with icon := lastIcon X S ρ }
        = List.foldl (fun acc r => if writes X r ρ then r.icon else acc) (lastIcon X S ρ) S :=
      lastIcon_ext _ S { ρ with icon := lastIcon X S ρ } (fun r => writes X r ρ) hwr
    have h2 : List.foldl (fun acc r => if writes X r ρ then r.icon else acc)
          (lastIcon X S ρ) S = lastIcon X S ρ :=
      foldl_icon_idem (fun r => writes X r ρ) (fun r => r.icon) S ρ.icon
    rw [h1, h2]
  · -- fresh rows are stable
    apply map_id_of_congr
    intro r₀ hr₀F
    have hr₀S : r₀ ∈ S := (List.mem_filter.mp hr₀F).1
    have hli : lastIcon (X.map (fun ρ => { ρ with icon := lastIcon X S ρ })
          ++ S.filter (freshCat X)) S r₀ = r₀.icon := by
      unfold lastIcon
      apply foldl_icon_const
      intro r hr hw
      simp only [writes, Bool.or_eq_true, Bool.and_eq_true] at hw
      rcases hw with h | h
      · have h' : r₀ = r := eq_of_pairwise_id hid hr₀S hr (by simpa using h)
        rw [h']
      · have h' : r₀ = r := eq_of_pairwise_name hnm hr₀S hr (by simpa using h.2)
        rw [h']
    show ({ r₀ with icon := lastIcon (X.map (fun ρ => { ρ with icon := lastIcon X S ρ })
          ++ S.filter (freshCat X)) S r₀ } : Category) = r₀
    rw [hli]

/-- Replaying a category sequence with pairwise-distinct ids and names over
its own result changes nothing. -/
theorem foldl_upsertCategory_idem (S X : List Category)
    (hid : S.Pairwise (fun a b => a.id ≠ b.id))
    (hnm : S.Pairwise (fun a b => a.name ≠ b.name)) :
    List.foldl upsertCategory (List.foldl upsertCategory X S) S
      = List.foldl upsertCategory X S := by
  rw [foldl_upsertCategory_closed S X hid hnm]
  exact foldl_upsertCategory_stable S X hid hnm

/-! ## Lemmas: the `ORDER BY date DESC` comparison -/

theorem chListLe_total : ∀ a b, chListLe a b = true ∨ chListLe b a = true := by
  intro a
  induction a with
  | nil => intro b; left; rfl
  | cons x as ih =>
    intro b
    cases b with
    | nil => right; rfl
    | cons y bs =>
      rcases lt_trichotomy x y with h | h | h
      · left; simp [chListLe, h]
      · subst h
        rcases ih bs with h2 | h2
        · left; simp [chListLe, h2]
        · right; simp [chListLe, h2]
      · right; simp [chListLe, h]

theorem chListLe_trans :
    ∀ a b c, chListLe a b = true → chListLe b c = true → chListLe a c = true := by
  intro a
  induction a with
  | nil => intro b c _ _; rfl
  | cons x as ih =>
    intro b c hab hbc
    cases b with
    | nil => simp [chListLe] at hab
    | cons y bs =>
      cases c with
      | nil => simp [chListLe] at hbc
      | cons z cs =>
        simp only [chListLe, Bool.or_eq_true, Bool.and_eq_true, decide_eq_true_iff,
          beq_iff_eq] at hab hbc ⊢
        rcases hab with h1 | ⟨h1, h1'⟩
        · rcases hbc with h2 | ⟨h2, h2'⟩
          · exact Or.inl (lt_trans h1 h2)
          · subst h2; exact Or.inl h1
        · subst h1
          rcases hbc with h2 | ⟨h2, h2'⟩
          · exact Or.inl h2
          · subst h2; exact Or.inr ⟨rfl, ih bs cs h1' h2'⟩

instance : IsTotal Transaction dateDesc :=
  ⟨fun t u => chListLe_total u.date.data t.date.data⟩

instance : IsTrans Transaction dateDesc :=
  ⟨fun _ _ _ h1 h2 => chListLe_trans _ _ _ h2 h1⟩

/-! ## Claim C2 -/

/-- C2: if any storage operation of a `/backup` call raises (a constraint
violation or a connectivity failure mid-processing, injected by the oracle,
including at commit time), the open transaction is rolled back: no record of
the call is persisted — including records from earlier, already-processed
sequences — and the committed state after the failed call equals the state
before it. -/
theorem backup_failure_rolls_back (db : DB) (d : BackupData) (oracle : Nat → Bool)
    (e : HTTPException) (h : (backup db d oracle).1 = Except.error e) :
    (backup db d oracle).2 = db := by
  unfold backup at h ⊢
  cases hexec : execStmts oracle 0 db (backupStmts d) with
  | error u => rfl
  | ok w =>
    rw [hexec] at h
    by_cases horc : oracle (backupStmts d).length = true
    · simp [horc]
    · simp [horc] at h

/-- Witness for C2: a call whose very first storage interaction fails leaves
the (empty) store untouched. -/
theorem backup_failure_rolls_back_witness :
    (backup emptyDB
        ⟨[⟨"t1", "2024-01-01", "Food", "expense", 10, "", "c", "u", 1⟩], [], []⟩
        (fun _ => true)).2 = emptyDB :=
  backup_failure_rolls_back emptyDB
    ⟨[⟨"t1", "2024-01-01", "Food", "expense", 10, "", "c", "u", 1⟩], [], []⟩
    (fun _ => true) ⟨500, "Backup failed"⟩ rfl

/-! ## Claim C6 -/

/-- C6: every `/restore` call returns the stored transactions ordered by the
`date` column descending (each transaction's date is ≥ the date of every
later one), the returned list being a permutation of the stored table; in
particular, after backing up transactions dated 2024-01-01 and 2024-03-15,
the one dated 2024-03-15 is returned first. -/
theorem restore_orders_transactions_date_desc :
    (∀ db : DB, List.Sorted dateDesc (restore db).transactions
      ∧ (restore db).transactions.Perm db.transactions)
    ∧ (restore (backup emptyDB
        ⟨[⟨"t1", "2024-01-01", "Food", "expense", 10, "", "c1", "u1", 1⟩,
          ⟨"t2", "2024-03-15", "Rent", "expense", 20, "", "c2", "u2", 1⟩], [], []⟩
        noFail).2).transactions
      = [⟨"t2", "2024-03-15", "Rent", "expense", 20, "", "c2", "u2", 1⟩,
         ⟨"t1", "2024-01-01", "Food", "expense", 10, "", "c1", "u1", 1⟩] := by
  constructor
  · intro db
    exact ⟨List.sorted_insertionSort dateDesc db.transactions,
           List.perm_insertionSort dateDesc db.transactions⟩
  · decide

/-! ## Claim C7 -/

/-- C7: a successful `/backup` reports per-entity counts equal to the lengths
of the three submitted sequences (what was submitted, not what changed), and
a backup of the empty snapshot succeeds with zero counts and leaves any prior
storage state unchanged. -/
theorem backup_reports_submitted_counts :
    (∀ (db : DB) (d : BackupData) (oracle : Nat → Bool) (resp : BackupResponse),
        (backup db d oracle).1 = Except.ok resp →
          resp = ⟨"success", "Backup completed successfully",
            d.transactions.length, d.budgets.length, d.categories.length⟩)
    ∧ (∀ db : DB, backup db ⟨[], [], []⟩ noFail
        = (Except.ok ⟨"success", "Backup completed successfully", 0, 0, 0⟩, db)) := by
  constructor
  · intro db d oracle resp h
    unfold backup at h
    cases hexec : execStmts oracle 0 db (backupStmts d) with
    | error u => rw [hexec] at h; simp at h
    | ok w =>
      rw [hexec] at h
      by_cases horc : oracle (backupStmts d).length = true
      · simp [horc] at h
      · simp only [horc, Bool.false_eq_true, if_false] at h
        injection h with h'
        exact h'.symm
  · intro db
    exact backup_noFail db ⟨[], [], []⟩

/-- Witness for C7: a one-transaction backup reports counts 1, 0, 0. -/
theorem backup_reports_submitted_counts_witness :
    (⟨"success", "Backup completed successfully", 1, 0, 0⟩ : BackupResponse)
      = ⟨"success", "Backup completed successfully",
          ([⟨"t1", "2024-01-01", "Food", "expense", 10, "", "c", "u", 1⟩] :
            List Transaction).length, ([] : List Budget).length,
          ([] : List Category).length⟩ :=
  backup_reports_submitted_counts.1 emptyDB
    ⟨[⟨"t1", "2024-01-01", "Food", "expense", 10, "", "c", "u", 1⟩], [], []⟩
    noFail ⟨"success", "Backup completed successfully", 1, 0, 0⟩ rfl

/-! ## Claim C8 -/

/-- C8: whatever the storage condition (credentials present or absent,
server reachable or not), `/health` is a total function — it never raises to
its caller — it never mutates the stored state, and it reports
healthy/connected exactly when a connection can be established, reporting
unhealthy/disconnected (instead of propagating the failure) otherwise. -/
theorem health_check_total_pure_and_reports :
    ∀ (e : Env) (c : Bool) (db : DB),
      (health_check e c db).2 = db
      ∧ ((health_check e c db).1 = ⟨"healthy", "connected"⟩
          ∨ (health_check e c db).1 = ⟨"unhealthy", "disconnected"⟩)
      ∧ ((health_check e c db).1 = ⟨"healthy", "connected"⟩
          ↔ get_db_connection e c = Except.ok ()) := by
  intro e c db
  cases hg : get_db_connection e c with
  | ok u => cases u; simp [health_check, hg]
  | error err => simp [health_check, hg]

/-! ## Claim C9 -/

/-- C9: a `/backup` containing a budget whose `category` equals a stored
budget row's category but whose `id` differs succeeds (`REPLACE INTO`
deletes the row colliding on the UNIQUE category key and inserts the new
one); afterwards exactly one budget row exists for that category — the newly
submitted one — and the previously stored row is gone. -/
theorem budget_category_conflict_replaces_row
    (db : DB) (b ρ : Budget)
    (hmem : ρ ∈ db.budgets) (hcat : ρ.category = b.category) (hne : ρ.id ≠ b.id) :
    (backup db ⟨[], [b], []⟩ noFail).1
        = Except.ok ⟨"success", "Backup completed successfully", 0, 1, 0⟩
    ∧ ((backup db ⟨[], [b], []⟩ noFail).2).budgets.filter
        (fun x => x.category == b.category) = [b]
    ∧ ρ ∉ ((backup db ⟨[], [b], []⟩ noFail).2).budgets := by
  rw [backup_noFail]
  refine ⟨rfl, ?_, ?_⟩
  · show ((db.budgets.filter fun x => !(budgetConflict b x)) ++ [b]).filter
        (fun x => x.category == b.category) = [b]
    rw [List.filter_append, List.filter_filter]
    have h1 : db.budgets.filter
        (fun x => (x.category == b.category) && !(budgetConflict b x)) = [] := by
      rw [List.filter_eq_nil_iff]
      intro x _
      by_cases hc : (x.category == b.category) = true
      · simp [budgetConflict, hc]
      · simp [hc]
    have h2 : [b].filter (fun x => x.category == b.category) = [b] := by
      simp
    rw [h1, h2]
    rfl
  · show ρ ∉ (db.budgets.filter fun x => !(budgetConflict b x)) ++ [b]
    intro hcontra
    rcases List.mem_append.mp hcontra with hmf | hmb
    · have hkeep := (List.mem_filter.mp hmf).2
      have hconf : budgetConflict b ρ = true := by
        simp [budgetConflict, hcat]
      rw [hconf] at hkeep
      simp at hkeep
    · have hρb : ρ = b := by simpa using hmb
      exact hne (by rw [hρb])

/-- Witness for C9: replacing the stored Groceries budget `b1` by a new
record with id `b2` leaves exactly the new row for that category. -/
theorem budget_category_conflict_replaces_row_witness :
    (backup ⟨[], [⟨"b1", "Groceries", 500, "c1", "u1"⟩], []⟩
        ⟨[], [⟨"b2", "Groceries", 300, "c2", "u2"⟩], []⟩ noFail).1
        = Except.ok ⟨"success", "Backup completed successfully", 0, 1, 0⟩
    ∧ ((backup ⟨[], [⟨"b1", "Groceries", 500, "c1", "u1"⟩], []⟩
        ⟨[], [⟨"b2", "Groceries", 300, "c2", "u2"⟩], []⟩ noFail).2).budgets.filter
        (fun x => x.category == ("Groceries" : String)) = [⟨"b2", "Groceries", 300, "c2", "u2"⟩]
    ∧ (⟨"b1", "Groceries", 500, "c1", "u1"⟩ : Budget)
        ∉ ((backup ⟨[], [⟨"b1", "Groceries", 500, "c1", "u1"⟩], []⟩
            ⟨[], [⟨"b2", "Groceries", 300, "c2", "u2"⟩], []⟩ noFail).2).budgets :=
  budget_category_conflict_replaces_row
    ⟨[], [⟨"b1", "Groceries", 500, "c1", "u1"⟩], []⟩
    ⟨"b2", "Groceries", 300, "c2", "u2"⟩ ⟨"b1", "Groceries", 500, "c1", "u1"⟩
    (List.mem_singleton.mpr rfl) rfl (by decide)

/-! ## Claim C10 -/

/-- C10: the category upsert's duplicate-key branch also fires on an `id`
collision: a `/backup` containing a category record whose `id` equals a
stored row's id (name differing) creates no new row — the table is mapped so
that the colliding row keeps its `id`, `name`, `type` and `created_at` and
only its `icon` becomes the submitted value, every other row unchanged. -/
theorem category_id_conflict_updates_icon_only
    (db : DB) (c ρ : Category)
    (hmem : ρ ∈ db.categories) (hidq : ρ.id = c.id) (hname : ρ.name ≠ c.name) :
    (backup db ⟨[], [], [c]⟩ noFail).2.categories
        = db.categories.map
            (fun σ => if σ.id == c.id then { σ with icon := c.icon } else σ)
    ∧ (backup db ⟨[], [], [c]⟩ noFail).2.categories.length
        = db.categories.length := by
  rw [backup_noFail]
  have hId : hasId db.categories c.id = true := by
    rw [← hidq]
    exact hasId_true_of_mem hmem
  constructor
  · show upsertCategory db.categories c = _
    unfold upsertCategory
    rw [if_pos hId]
  · show (upsertCategory db.categories c).length = _
    unfold upsertCategory
    rw [if_pos hId, List.length_map]

/-- Witness for C10: submitting `{id:"c2", name:"Beverages"}` against a
store holding `{id:"c2", name:"Drinks"}` only rewrites that row's icon. -/
theorem category_id_conflict_updates_icon_only_witness :
    (backup ⟨[], [], [⟨"c2", "Drinks", "income", some "B", "t2"⟩]⟩
        ⟨[], [], [⟨"c2", "Beverages", "expense", some "X", "t9"⟩]⟩ noFail).2.categories
        = ([⟨"c2", "Drinks", "income", some "B", "t2"⟩] : List Category).map
            (fun σ => if σ.id == ("c2" : String) then { σ with icon := some "X" } else σ)
    ∧ (backup ⟨[], [], [⟨"c2", "Drinks", "income", some "B", "t2"⟩]⟩
        ⟨[], [], [⟨"c2", "Beverages", "expense", some "X", "t9"⟩]⟩ noFail).2.categories.length
        = ([⟨"c2", "Drinks", "income", some "B", "t2"⟩] : List Category).length :=
  category_id_conflict_updates_icon_only
    ⟨[], [], [⟨"c2", "Drinks", "income", some "B", "t2"⟩]⟩
    ⟨"c2", "Beverages", "expense", some "X", "t9"⟩
    ⟨"c2", "Drinks", "income", some "B", "t2"⟩
    (List.mem_singleton.mpr rfl) rfl (by decide)

/-! ## Claim C1 -/

/-- Counterexample to C1: submitting a second budget with a new id but the
same category `Groceries` does not fail — the call returns the success
response — and storage is not left as after the first call (the old row is
replaced), contradicting the claimed constraint-violation failure. -/
theorem budget_uniqueness_failure_cex :
    (backup (backup emptyDB ⟨[], [⟨"b1", "Groceries", 500, "c1", "u1"⟩], []⟩ noFail).2
        ⟨[], [⟨"b2", "Groceries", 300, "c2", "u2"⟩], []⟩ noFail).1
      = Except.ok ⟨"success", "Backup completed successfully", 0, 1, 0⟩
    ∧ (backup (backup emptyDB ⟨[], [⟨"b1", "Groceries", 500, "c1", "u1"⟩], []⟩ noFail).2
        ⟨[], [⟨"b2", "Groceries", 300, "c2", "u2"⟩], []⟩ noFail).2
      ≠ (backup emptyDB ⟨[], [⟨"b1", "Groceries", 500, "c1", "u1"⟩], []⟩ noFail).2 := by
  constructor
  · rfl
  · decide

/-- C1 (amended): for two successive Backup calls whose budgets share a
category but carry different fresh ids, the second call succeeds and the
stored budget table afterwards holds exactly the second record — `REPLACE
INTO` resolves the UNIQUE-category collision by deleting the old row. -/
theorem budget_uniqueness_second_call_replaces (b1 b2 : Budget)
    (hne : b1.id ≠ b2.id) (hcat : b1.category = b2.category) :
    (backup (backup emptyDB ⟨[], [b1], []⟩ noFail).2 ⟨[], [b2], []⟩ noFail).1
      = Except.ok ⟨"success", "Backup completed successfully", 0, 1, 0⟩
    ∧ (backup (backup emptyDB ⟨[], [b1], []⟩ noFail).2 ⟨[], [b2], []⟩ noFail).2.budgets
      = [b2] := by
  rw [backup_noFail, backup_noFail]
  refine ⟨rfl, ?_⟩
  show ([b1].filter fun x => !(budgetConflict b2 x)) ++ [b2] = [b2]
  have hconf : budgetConflict b2 b1 = true := by
    simp [budgetConflict, hcat]
  simp [List.filter_cons, hconf]

/-- Witness for the amended C1 at the concrete Groceries pair. -/
theorem budget_uniqueness_second_call_replaces_witness :
    (backup (backup emptyDB ⟨[], [⟨"b1", "Groceries", 500, "c1", "u1"⟩], []⟩ noFail).2
        ⟨[], [⟨"b2", "Groceries", 300, "c2", "u2"⟩], []⟩ noFail).1
      = Except.ok ⟨"success", "Backup completed successfully", 0, 1, 0⟩
    ∧ (backup (backup emptyDB ⟨[], [⟨"b1", "Groceries", 500, "c1", "u1"⟩], []⟩ noFail).2
        ⟨[], [⟨"b2", "Groceries", 300, "c2", "u2"⟩], []⟩ noFail).2.budgets
      = [⟨"b2", "Groceries", 300, "c2", "u2"⟩] :=
  budget_uniqueness_second_call_replaces
    ⟨"b1", "Groceries", 500, "c1", "u1"⟩ ⟨"b2", "Groceries", 300, "c2", "u2"⟩
    (by decide) rfl

/-! ## Claim C3 -/

/-- Counterexample to C3: with rows `{c1, Food}` and `{c2, Drinks}` stored,
backing up `{id:"c2", name:"Food", icon:"X"}` collides on the PRIMARY KEY
first: the `Drinks` row's icon is rewritten and the stored `Food` row is
left completely unchanged — its icon is not set to the submitted value, so
the claim fails for this Backup. -/
theorem category_name_conflict_cex :
    (backup (backup emptyDB ⟨[], [], [⟨"c1", "Food", "expense", some "A", "t1"⟩,
          ⟨"c2", "Drinks", "income", some "B", "t2"⟩]⟩ noFail).2
        ⟨[], [], [⟨"c2", "Food", "income", some "X", "t3"⟩]⟩ noFail).2.categories
      = [⟨"c1", "Food", "expense", some "A", "t1"⟩,
         ⟨"c2", "Drinks", "income", some "X", "t2"⟩]
    ∧ (⟨"c1", "Food", "expense", some "X", "t1"⟩ : Category)
        ∉ (backup (backup emptyDB ⟨[], [], [⟨"c1", "Food", "expense", some "A", "t1"⟩,
              ⟨"c2", "Drinks", "income", some "B", "t2"⟩]⟩ noFail).2
            ⟨[], [], [⟨"c2", "Food", "income", some "X", "t3"⟩]⟩ noFail).2.categories := by
  constructor
  · rfl
  · decide

/-- C3 (amended): for a Backup containing a category whose name equals a
stored row's name, *provided the submitted id does not collide with a
different stored row* (it equals the matching row's id or is absent from the
table), the matching stored row keeps its id, type and created_at and only
its icon is set to the submitted value; no other row changes and no row is
added. -/
theorem category_name_conflict_updates_icon
    (db : DB) (c ρ : Category)
    (hwf_id : db.categories.Pairwise (fun a b => a.id ≠ b.id))
    (hwf_nm : db.categories.Pairwise (fun a b => a.name ≠ b.name))
    (hmem : ρ ∈ db.categories) (hname : ρ.name = c.name)
    (hid : c.id = ρ.id ∨ hasId db.categories c.id = false) :
    (backup db ⟨[], [], [c]⟩ noFail).2.categories
      = db.categories.map
          (fun σ => if σ.name == ρ.name then { σ with icon := c.icon } else σ) := by
  rw [backup_noFail]
  show upsertCategory db.categories c = _
  rcases hid with heq | hfr
  · have hId : hasId db.categories c.id = true := by
      rw [heq]
      exact hasId_true_of_mem hmem
    unfold upsertCategory
    rw [if_pos hId]
    apply List.map_congr_left
    intro σ hσ
    by_cases h1 : (σ.id == c.id) = true
    · have hσρ : σ = ρ := by
        apply eq_of_pairwise_id hwf_id hσ hmem
        rw [beq_iff_eq] at h1
        rw [h1, heq]
      have h2 : (σ.name == ρ.name) = true := by
        rw [hσρ]
        exact beq_self_eq_true _
      rw [if_pos h1, if_pos h2]
    · by_cases h2 : (σ.name == ρ.name) = true
      · exfalso
        apply h1
        rw [beq_iff_eq] at h2
        have hσρ : σ = ρ := eq_of_pairwise_name hwf_nm hσ hmem h2
        rw [hσρ, ← heq]
        exact beq_self_eq_true _
      · rw [if_neg h1, if_neg h2]
  · have hNm : hasName db.categories c.name = true := by
      rw [← hname]
      exact hasName_true_of_mem hmem
    unfold upsertCategory
    rw [if_neg (by simp [hfr]), if_pos hNm, hname]

/-- Witness for the amended C3: the spec's own example — `{c1, Food, expense,
🍔}` then `{c2, Food, income, 🍕}` rewrites only the icon of the `c1` row. -/
theorem category_name_conflict_updates_icon_witness :
    (backup ⟨[], [], [⟨"c1", "Food", "expense", some "🍔", "t1"⟩]⟩
        ⟨[], [], [⟨"c2", "Food", "income", some "🍕", "t2"⟩]⟩ noFail).2.categories
      = ([⟨"c1", "Food", "expense", some "🍔", "t1"⟩] : List Category).map
          (fun σ => if σ.name == ("Food" : String) then { σ with icon := some "🍕" } else σ) :=
  category_name_conflict_updates_icon
    ⟨[], [], [⟨"c1", "Food", "expense", some "🍔", "t1"⟩]⟩
    ⟨"c2", "Food", "income", some "🍕", "t2"⟩
    ⟨"c1", "Food", "expense", some "🍔", "t1"⟩
    (List.pairwise_singleton _ _) (List.pairwise_singleton _ _)
    (List.mem_singleton.mpr rfl) rfl (Or.inr (by decide))

/-! ## Claim C4 -/

/-- Counterexample to C4: a snapshot containing two transactions with the
same id is not reproduced byte-for-byte by `Restore(Backup(S))` — the first
record is overwritten by the second and is absent from the restored data. -/
theorem roundtrip_duplicate_id_cex :
    (⟨"t1", "2024-01-01", "Food", "expense", 10, "x", "c1", "u1", 1⟩ : Transaction)
      ∉ (restore (backup emptyDB
          ⟨[⟨"t1", "2024-01-01", "Food", "expense", 10, "x", "c1", "u1", 1⟩,
            ⟨"t1", "2024-01-02", "Food", "expense", 20, "y", "c2", "u2", 1⟩], [], []⟩
          noFail).2).transactions := by
  decide

/-- C4 (amended): for a snapshot whose transactions have pairwise-distinct
ids, whose budgets have pairwise-distinct ids and pairwise-distinct
categories, and whose categories have pairwise-distinct ids and
pairwise-distinct names, `Backup` on empty storage followed by `Restore`
returns every submitted transaction, every submitted budget and every
submitted category record with every field equal to what was submitted
(transactions reordered by date descending; the order in which budgets and
categories come back is not asserted — the source SELECTs carry no
ORDER BY). -/
theorem backup_restore_roundtrip (d : BackupData)
    (htx : d.transactions.Pairwise (fun a b => a.id ≠ b.id))
    (hbid : d.budgets.Pairwise (fun a b => a.id ≠ b.id))
    (hbcat : d.budgets.Pairwise (fun a b => a.category ≠ b.category))
    (hcid : d.categories.Pairwise (fun a b => a.id ≠ b.id))
    (hcnm : d.categories.Pairwise (fun a b => a.name ≠ b.name)) :
    (∀ t ∈ d.transactions, t ∈ (restore (backup emptyDB d noFail).2).transactions)
    ∧ (∀ b ∈ d.budgets, b ∈ (restore (backup emptyDB d noFail).2).budgets)
    ∧ (∀ c ∈ d.categories, c ∈ (restore (backup emptyDB d noFail).2).categories) := by
  rw [backup_noFail]
  have htx' : List.foldl (replaceRow txConflict) [] d.transactions = d.transactions := by
    apply foldl_replaceRow_of_pairwise
    apply List.Pairwise.imp ?_ htx
    intro a b hab
    exact beq_eq_false_iff_ne.mpr hab
  have hbg' : List.foldl (replaceRow budgetConflict) [] d.budgets = d.budgets := by
    apply foldl_replaceRow_of_pairwise
    apply List.Pairwise.imp ?_ (List.Pairwise.and hbid hbcat)
    intro a b hab
    simp [budgetConflict, beq_eq_false_iff_ne.mpr hab.1, beq_eq_false_iff_ne.mpr hab.2]
  have hct' : List.foldl upsertCategory [] d.categories = d.categories :=
    foldl_upsertCategory_nil d.categories hcid hcnm
  refine ⟨?_, ?_, ?_⟩
  · intro t ht
    show t ∈ List.insertionSort dateDesc (List.foldl (replaceRow txConflict) [] d.transactions)
    rw [htx']
    exact (List.perm_insertionSort dateDesc d.transactions).mem_iff.mpr ht
  · intro b hb
    show b ∈ List.foldl (replaceRow budgetConflict) [] d.budgets
    rw [hbg']
    exact hb
  · intro cr hcr
    show cr ∈ List.foldl upsertCategory [] d.categories
    rw [hct']
    exact hcr

/-- Witness for the amended C4 on a two-transaction, one-budget,
one-category snapshot. -/
theorem backup_restore_roundtrip_witness :
    ((⟨"t1", "2024-01-01", "Food", "expense", 10, "", "c1", "u1", 1⟩ : Transaction)
        ∈ (restore (backup emptyDB
            ⟨[⟨"t1", "2024-01-01", "Food", "expense", 10, "", "c1", "u1", 1⟩,
              ⟨"t2", "2024-03-15", "Rent", "expense", 20, "", "c2", "u2", 1⟩],
              [⟨"b1", "Food", 500, "c3", "u3"⟩],
              [⟨"c1", "Food", "expense", some "F", "t1"⟩]⟩ noFail).2).transactions)
    ∧ ((⟨"b1", "Food", 500, "c3", "u3"⟩ : Budget)
        ∈ (restore (backup emptyDB
          ⟨[⟨"t1", "2024-01-01", "Food", "expense", 10, "", "c1", "u1", 1⟩,
            ⟨"t2", "2024-03-15", "Rent", "expense", 20, "", "c2", "u2", 1⟩],
            [⟨"b1", "Food", 500, "c3", "u3"⟩],
            [⟨"c1", "Food", "expense", some "F", "t1"⟩]⟩ noFail).2).budgets)
    ∧ ((⟨"c1", "Food", "expense", some "F", "t1"⟩ : Category)
        ∈ (restore (backup emptyDB
          ⟨[⟨"t1", "2024-01-01", "Food", "expense", 10, "", "c1", "u1", 1⟩,
            ⟨"t2", "2024-03-15", "Rent", "expense", 20, "", "c2", "u2", 1⟩],
            [⟨"b1", "Food", 500, "c3", "u3"⟩],
            [⟨"c1", "Food", "expense", some "F", "t1"⟩]⟩ noFail).2).categories) :=
  ⟨(backup_restore_roundtrip _ (by decide) (by decide) (by decide) (by decide) (by decide)).1
      _ (by decide),
   (backup_restore_roundtrip _ (by decide) (by decide) (by decide) (by decide) (by decide)).2.1
      _ (by decide),
   (backup_restore_roundtrip _ (by decide) (by decide) (by decide) (by decide) (by decide)).2.2
      _ (by decide)⟩

/-! ## Claim C5 -/

/-- Counterexample to C5: for the snapshot whose categories are
`{1,N,P}, {2,N,Q}, {2,M,R}` (an id colliding with a later insert while the
name collides with an earlier row), running Backup twice neither leaves
storage as after one run nor yields the same Restore result: the first run
leaves the `N` row with icon `Q`, the second run leaves it with icon `P`. -/
theorem backup_idempotence_cex :
    (backup (backup emptyDB ⟨[], [], [⟨"1", "N", "e", some "P", "t1"⟩,
          ⟨"2", "N", "e", some "Q", "t2"⟩, ⟨"2", "M", "e", some "R", "t3"⟩]⟩ noFail).2
        ⟨[], [], [⟨"1", "N", "e", some "P", "t1"⟩, ⟨"2", "N", "e", some "Q", "t2"⟩,
          ⟨"2", "M", "e", some "R", "t3"⟩]⟩ noFail).2
      ≠ (backup emptyDB ⟨[], [], [⟨"1", "N", "e", some "P", "t1"⟩,
          ⟨"2", "N", "e", some "Q", "t2"⟩, ⟨"2", "M", "e", some "R", "t3"⟩]⟩ noFail).2
    ∧ restore (backup (backup emptyDB ⟨[], [], [⟨"1", "N", "e", some "P", "t1"⟩,
          ⟨"2", "N", "e", some "Q", "t2"⟩, ⟨"2", "M", "e", some "R", "t3"⟩]⟩ noFail).2
        ⟨[], [], [⟨"1", "N", "e", some "P", "t1"⟩, ⟨"2", "N", "e", some "Q", "t2"⟩,
          ⟨"2", "M", "e", some "R", "t3"⟩]⟩ noFail).2
      ≠ restore (backup emptyDB ⟨[], [], [⟨"1", "N", "e", some "P", "t1"⟩,
          ⟨"2", "N", "e", some "Q", "t2"⟩, ⟨"2", "M", "e", some "R", "t3"⟩]⟩ noFail).2 := by
  constructor
  · decide
  · decide

/-- C5 (amended): for every snapshot whose category records have
pairwise-distinct ids and pairwise-distinct names (the transaction and
budget sequences are unrestricted), calling Backup twice in succession from
any storage state leaves storage — and hence the Restore result — exactly as
one call does. -/
theorem backup_idempotent (db : DB) (d : BackupData)
    (hcid : d.categories.Pairwise (fun a b => a.id ≠ b.id))
    (hcnm : d.categories.Pairwise (fun a b => a.name ≠ b.name)) :
    (backup (backup db d noFail).2 d noFail).2 = (backup db d noFail).2
    ∧ restore (backup (backup db d noFail).2 d noFail).2
        = restore (backup db d noFail).2 := by
  have hstate : (backup (backup db d noFail).2 d noFail).2 = (backup db d noFail).2 := by
    rw [backup_noFail, backup_noFail]
    show applyBackup (applyBackup db d) d = applyBackup db d
    unfold applyBackup
    congr 1
    · exact foldl_replaceRow_idem txConflict (fun t => beq_self_eq_true _)
        d.transactions db.transactions
    · exact foldl_replaceRow_idem budgetConflict (fun b => by simp [budgetConflict])
        d.budgets db.budgets
    · exact foldl_upsertCategory_idem d.categories db.categories hcid hcnm
  exact ⟨hstate, by rw [hstate]⟩

/-- Witness for the amended C5 on a small mixed snapshot. -/
theorem backup_idempotent_witness :
    (backup (backup emptyDB
        ⟨[⟨"t1", "2024-01-01", "Food", "expense", 10, "", "c1", "u1", 1⟩],
          [⟨"b1", "Food", 500, "c3", "u3"⟩],
          [⟨"c1", "Food", "expense", some "F", "t1"⟩]⟩ noFail).2
        ⟨[⟨"t1", "2024-01-01", "Food", "expense", 10, "", "c1", "u1", 1⟩],
          [⟨"b1", "Food", 500, "c3", "u3"⟩],
          [⟨"c1", "Food", "expense", some "F", "t1"⟩]⟩ noFail).2
      = (backup emptyDB
        ⟨[⟨"t1", "2024-01-01", "Food", "expense", 10, "", "c1", "u1", 1⟩],
          [⟨"b1", "Food", 500, "c3", "u3"⟩],
          [⟨"c1", "Food", "expense", some "F", "t1"⟩]⟩ noFail).2 :=
  (backup_idempotent emptyDB
    ⟨[⟨"t1", "2024-01-01", "Food", "expense", 10, "", "c1", "u1", 1⟩],
      [⟨"b1", "Food", 500, "c3", "u3"⟩],
      [⟨"c1", "Food", "expense", some "F", "t1"⟩]⟩
    (List.pairwise_singleton _ _) (List.pairwise_singleton _ _)).1
